import Mathlib

/-!
Verification development for the DevOps-Sync-Script repository.

The repository incrementally replicates Salesforce records into PostgreSQL:
`data_syncer.py` orchestrates per-table sync runs (watermark read, query
rewrite, paginated extraction, batched upsert/delete, watermark commit),
`salesforce_accessor.py` provides paginated extraction, and
`postgres_accessor.py` provides batched upsert/delete and watermark storage.

Queries and timestamps are modelled as `List Char` (Python `str`), with the
relevant Python string methods (`in`, `split`, `rstrip`, `upper`, `join`)
re-implemented below with matching semantics for the ASCII inputs the sync
path manipulates.  Salesforce records are modelled as JSON-like dictionaries
(`Record`), the PostgreSQL table as a list of rows, and the network/database
as explicit inputs (a list of page responses; a failure-injection flag).
-/

/-! ## Python string primitives over `List Char` -/

/-- ASCII upper-casing of one character, as Python `str.upper` does on the
ASCII queries handled by the syncer. -/
def upChar (c : Char) : Char :=
  if 'a' ≤ c ∧ c ≤ 'z' then Char.ofNat (c.toNat - 32) else c

/-- Python `s.upper()`. -/
def upperL (s : List Char) : List Char := s.map upChar

/-- Does `s` start with `pat`? -/
def startsWithL : List Char → List Char → Bool
  | [], _ => true
  | _ :: _, [] => false
  | p :: ps, c :: cs => p == c && startsWithL ps cs

/-- Python `pat in s` (substring containment). -/
def containsL (s pat : List Char) : Bool :=
  match s with
  | [] => pat.isEmpty
  | _ :: t => startsWithL pat s || containsL t pat

/-- Fuel-driven worker for `splitOnL`; with fuel `s.length` it computes
Python `s.split(pat)` (leftmost, non-overlapping) for non-empty `pat`. -/
def splitOnFuel (pat : List Char) : Nat → List Char → List (List Char)
  | _, [] => [[]]
  | 0, s => [s]
  | Nat.succ n, c :: t =>
    if startsWithL pat (c :: t) && !pat.isEmpty then
      [] :: splitOnFuel pat n ((c :: t).drop pat.length)
    else
      match splitOnFuel pat n t with
      | [] => [[c]]
      | h :: r => (c :: h) :: r

/-- Python `s.split(pat)` for a non-empty separator `pat`. -/
def splitOnL (s pat : List Char) : List (List Char) :=
  splitOnFuel pat s.length s

/-- Python `pat.join(parts)`. -/
def intercalateL (pat : List Char) : List (List Char) → List Char
  | [] => []
  | [x] => x
  | x :: xs => x ++ pat ++ intercalateL pat xs

/-- Python `s.rstrip()` (strip trailing whitespace). -/
def rstripL (s : List Char) : List Char :=
  (s.reverse.dropWhile (fun c => c.isWhitespace)).reverse

/-- Python `s.rstrip(',')` (strip trailing commas). -/
def rstripCommaL (s : List Char) : List Char :=
  (s.reverse.dropWhile (fun c => c == ',')).reverse

/-! ## Query rewriting (`DataSyncer._build_query_with_watermark`) -/

/-- The literal `"IsDeleted"`. -/
def isDeletedT : List Char := "IsDeleted".toList

/-- The literal `"LastModifiedDate"`. -/
def lastModT : List Char := "LastModifiedDate".toList

/-- The literal `"FROM"`. -/
def fromT : List Char := "FROM".toList

/-- The literal `"WHERE"`. -/
def whereT : List Char := "WHERE".toList

/-- The literal `"LIMIT"`. -/
def limitT : List Char := "LIMIT".toList

/-- The literal `" AND LastModifiedDate > "`. -/
def andLastModT : List Char := " AND LastModifiedDate > ".toList

/-- The literal `" WHERE LastModifiedDate > "`. -/
def whereLastModT : List Char := " WHERE LastModifiedDate > ".toList

/-- The literal `" LIMIT "`. -/
def limitSpaceT : List Char := " LIMIT ".toList

/-- One field-injection block of `_build_query_with_watermark`
(`data_syncer.py` lines 168-183; the two blocks are identical up to the
field name): if `field` does not occur in the query text and the upper-cased
query contains `FROM`, split on (case-sensitive) `FROM`, strip trailing
whitespace and commas from the part before the first `FROM`, and rebuild as
`select_part ++ ", " ++ field ++ " FROM" ++ join of the remaining parts`. -/
def ensure_field (field : List Char) (q : List Char) : List Char :=
  if containsL q field then q
  else if containsL (upperL q) fromT then
    let parts := splitOnL q fromT
    rstripCommaL (rstripL (parts.headD [])) ++ ", ".toList ++ field ++ " ".toList
      ++ (fromT ++ (parts.drop 1).flatten)
  else q

/-- The field-injection half of `_build_query_with_watermark` (lines
168-183): first ensure `IsDeleted`, then `LastModifiedDate`. -/
def ensured_query (q : List Char) : List Char :=
  ensure_field lastModT (ensure_field isDeletedT q)

/-- `DataSyncer._build_query_with_watermark` (`data_syncer.py` 157-201).
The watermark is modelled as the already-`strftime`-formatted timestamp
string (`%Y-%m-%dT%H:%M:%SZ`), `none` when no watermark row exists. -/
def build_query_with_watermark (base_query : List Char)
    (watermark : Option (List Char)) : List Char :=
  let bq2 := ensured_query base_query
  match watermark with
  | none => bq2
  | some ts =>
    if containsL (upperL bq2) whereT then
      rstripL bq2 ++ andLastModT ++ ts
    else if containsL (upperL bq2) limitT then
      rstripL ((splitOnL bq2 limitT).headD []) ++ whereLastModT ++ ts
        ++ limitSpaceT ++ intercalateL limitT ((splitOnL bq2 limitT).drop 1)
    else
      rstripL bq2 ++ whereLastModT ++ ts

/-- Modelled from the spec: the projection of a query is the selection list,
the text before the first `FROM` keyword.  Used to state what "present in
the query's projection" means; the source has no such notion (its presence
check is a substring test over the whole query text). -/
def projection_of (q : List Char) : List Char :=
  (splitOnL q fromT).headD q

/-! ## Salesforce records (JSON-like values) -/

/-- JSON-like value as delivered by the Salesforce REST API and inspected by
the sync path: null, boolean, string, or nested object.  Numeric leaves are
not inspected by any sync-path branch and are representable as opaque
strings here. -/
inductive Val where
  | vnull : Val
  | vbool (b : Bool) : Val
  | vstr (s : List Char) : Val
  | vobj (fields : List (List Char × Val)) : Val

/-- A Salesforce record: a Python dict from field name to value. -/
abbrev Record : Type := List (List Char × Val)

/-- Python `d.get(k)` on a dict: the first binding for `k`, if any. -/
def dictGet (r : List (List Char × Val)) (k : List Char) : Option Val :=
  (r.find? (fun p => p.1 == k)).map (fun p => p.2)

/-- Python truthiness of a value (`bool(x)`): `None` and empty
string/dict are falsy. -/
def truthy : Val → Bool
  | Val.vnull => false
  | Val.vbool b => b
  | Val.vstr s => !s.isEmpty
  | Val.vobj fs => !fs.isEmpty

/-- Dotted field-path resolution shared by `upsert_batch` (lines 168-177)
and `delete_by_keys` (lines 249-256) of `postgres_accessor.py`:
`record.get(parts[0], {})`, then for each further segment
`value.get(part) if isinstance(value, dict) else None`.  Python conflates a
missing key with a stored `None`; both are `vnull` here. -/
def resolve_field (r : Record) (sf_field : List Char) : Val :=
  if containsL sf_field (".".toList) then
    let parts := splitOnL sf_field (".".toList)
    (parts.drop 1).foldl
      (fun v part =>
        match v with
        | Val.vobj fs => (dictGet fs part).getD Val.vnull
        | _ => Val.vnull)
      ((dictGet r (parts.headD [])).getD (Val.vobj []))
  else (dictGet r sf_field).getD Val.vnull

/-- Python `str(value)` for the leaf values interpolated into the delete
condition literal (pk = quoted value); `None` never reaches this point
(it is filtered out), and nested objects are never key values in practice. -/
def pyStr : Val → List Char
  | Val.vnull => "None".toList
  | Val.vbool true => "True".toList
  | Val.vbool false => "False".toList
  | Val.vstr s => s
  | Val.vobj _ => "dict".toList

/-! ## PostgreSQL accessor (`postgres_accessor.py`) -/

/-- A PostgreSQL table row: column name to stored value. -/
abbrev Row : Type := List (List Char × Val)

/-- Value stored in `row` under column `col`. -/
def rowGet (row : Row) (col : List Char) : Option Val :=
  dictGet row col

mutual

/-- Boolean equality of values (needed to model the unique-index semantics
of `ON CONFLICT`); structural on the JSON tree. -/
def valEq : Val → Val → Bool
  | Val.vnull, Val.vnull => true
  | Val.vbool a, Val.vbool b => a == b
  | Val.vstr a, Val.vstr b => a == b
  | Val.vobj fs, Val.vobj gs => valFieldsEq fs gs
  | _, _ => false

/-- Boolean equality of object field lists, pointwise and in order. -/
def valFieldsEq : List (List Char × Val) → List (List Char × Val) → Bool
  | [], [] => true
  | (k, v) :: fs, (k2, v2) :: gs => k == k2 && valEq v v2 && valFieldsEq fs gs
  | _, _ => false

end

/-- Equality of key tuples (lists of values). -/
def keyTupleEq (a b : List Val) : Bool :=
  a.length == b.length && (a.zip b).all (fun p => valEq p.1 p.2)

/-- Are all key tuples in the list pairwise distinct? -/
def keysDistinct : List (List Val) → Bool
  | [] => true
  | k :: ks => ks.all (fun k2 => !keyTupleEq k k2) && keysDistinct ks

/-- The key tuple of a row: the values of the `primary_keys` columns, in
key order (`NULL` for a column the row does not carry). -/
def rowKey (primary_keys : List (List Char)) (row : Row) : List Val :=
  primary_keys.map (fun k => (rowGet row k).getD Val.vnull)

/-- The row tuple `upsert_batch` extracts for one record
(`postgres_accessor.py` lines 165-178): one value per `field_mapping` entry,
resolved through the dotted-path logic. -/
def record_row (field_mapping : List (List Char × List Char)) (r : Record) :
    List Val :=
  field_mapping.map (fun p => resolve_field r p.1)

/-- `ON CONFLICT` application of one incoming row (PostgreSQL semantics of
`INSERT .. ON CONFLICT (keys) DO UPDATE SET col = EXCLUDED.col` for each
non-key column): if a row with the same key tuple exists, overwrite its
non-key columns that the insert carries; otherwise append the new row. -/
def upsert_one (primary_keys : List (List Char)) (table : List Row)
    (newRow : Row) : List Row :=
  let k := rowKey primary_keys newRow
  if table.any (fun row => keyTupleEq (rowKey primary_keys row) k) then
    table.map (fun row =>
      if keyTupleEq (rowKey primary_keys row) k then
        row.map (fun cv =>
          if primary_keys.contains cv.1 then cv
          else (cv.1, (rowGet newRow cv.1).getD cv.2))
      else row)
  else table ++ [newRow]

/-- The `page_size` default of `psycopg2.extras.execute_values`: the batch
is executed as one statement per page of 100 value rows. -/
def execute_values_page_size : Nat := 100

/-- Fuel-driven worker for `chunksOf`; with fuel `l.length` it splits `l`
into consecutive pages of `n` elements (the last page possibly shorter). -/
def chunksFuel (n : Nat) : Nat → List (List Val) → List (List (List Val))
  | _, [] => []
  | 0, l => [l]
  | Nat.succ f, l => l.take n :: chunksFuel n f (l.drop n)

/-- The pages `execute_values` makes of the value rows. -/
def chunksOf (n : Nat) (l : List (List Val)) : List (List (List Val)) :=
  chunksFuel n l.length l

/-- Modelled outcome of ONE paged
`INSERT INTO t (cols) VALUES ... ON CONFLICT (keys) DO UPDATE SET ...`
statement issued by `execute_values` for `upsert_batch` (lines 180-199).
`none` models a statement error, in the cases PostgreSQL itself rejects:
an empty conflict target or an empty `DO UPDATE SET` column list is a
malformed statement, and two source rows of the SAME statement with the
same key tuple raise "ON CONFLICT DO UPDATE command cannot affect row a
second time". -/
def apply_upsert_statement (pg_columns : List (List Char))
    (primary_keys : List (List Char)) (table : List Row)
    (rows : List (List Val)) : Option (List Row) :=
  if primary_keys.isEmpty then none
  else if (pg_columns.filter (fun c => !primary_keys.contains c)).isEmpty then
    none
  else if !keysDistinct (rows.map (fun vs =>
      rowKey primary_keys (pg_columns.zip vs))) then none
  else some (rows.foldl
    (fun t vs => upsert_one primary_keys t (pg_columns.zip vs)) table)

/-- Sequential execution of the per-page statements of one
`execute_values` call, all inside the one open transaction: pages run in
order; a failing page aborts the call (the surrounding `except` then rolls
the whole transaction — earlier pages included — back). -/
def apply_upsert_pages (pg_columns : List (List Char))
    (primary_keys : List (List Char)) :
    List Row → List (List (List Val)) → Option (List Row)
  | table, [] => some table
  | table, page :: rest =>
    match apply_upsert_statement pg_columns primary_keys table page with
    | none => none
    | some t2 => apply_upsert_pages pg_columns primary_keys t2 rest

/-- `PostgresAccessor.upsert_batch` (lines 138-210) over an explicit table
state.  `db_fail` injects the exception path (network/SQL failure): the
`except` branch rolls the transaction back — table unchanged — and returns
`(0, 0)`.  `execute_values` pages the batch at
`execute_values_page_size` rows per statement; a failure in any page makes
the whole transaction roll back.  On success the one `conn.commit()` lands
the whole batch, and `cursor.rowcount` — the rowcount of the LAST page's
statement, one affected row per source row of that page — is returned as
the first component. -/
def run_upsert_batch (db_fail : Bool) (table : List Row)
    (records : List Record) (field_mapping : List (List Char × List Char))
    (primary_keys : List (List Char)) : List Row × Nat × Nat :=
  if records.isEmpty then (table, 0, 0)
  else if db_fail then (table, 0, 0)
  else
    match apply_upsert_pages (field_mapping.map (fun p => p.2)) primary_keys
        table (chunksOf execute_values_page_size
          (records.map (record_row field_mapping))) with
    | none => (table, 0, 0)
    | some t2 =>
      (t2, ((chunksOf execute_values_page_size
        (records.map (record_row field_mapping))).getLast?.getD []).length, 0)

/-- The Salesforce field mapped to target column `pk`: the first
`field_mapping` entry whose target column equals `pk`
(`postgres_accessor.py` lines 241-246). -/
def find_sf_field (field_mapping : List (List Char × List Char))
    (pk : List Char) : Option (List Char) :=
  (field_mapping.find? (fun p => p.2 == pk)).map (fun p => p.1)

/-- The key-equality conjunction `delete_by_keys` builds for one record
(lines 238-262): for each key column with a mapped Salesforce field whose
resolved value is not `None`, one pair (column, interpolated literal). -/
def record_delete_condition (field_mapping : List (List Char × List Char))
    (primary_keys : List (List Char)) (r : Record) :
    List (List Char × List Char) :=
  primary_keys.filterMap (fun pk =>
    match find_sf_field field_mapping pk with
    | none => none
    | some sf =>
      match resolve_field r sf with
      | Val.vnull => none
      | v => some (pk, pyStr v))

/-- The disjunction of per-record conjunctions forming the `WHERE` clause of
the batch delete; a record whose conjunction is empty is dropped
(lines 261-262). -/
def delete_conditions (field_mapping : List (List Char × List Char))
    (primary_keys : List (List Char)) (records : List Record) :
    List (List (List Char × List Char)) :=
  records.filterMap (fun r =>
    let cs := record_delete_condition field_mapping primary_keys r
    if cs.isEmpty then none else some cs)

/-- SQL truth of one condition atom `col = 'lit'` against a row: the stored
text value equals the literal.  `NULL` and non-text values never satisfy the
equality (the claims only exercise text key columns). -/
def atom_matches (row : Row) (atom : List Char × List Char) : Bool :=
  match rowGet row atom.1 with
  | some (Val.vstr s) => s == atom.2
  | _ => false

/-- Does a row satisfy one record's key-equality conjunction? -/
def cond_matches (cond : List (List Char × List Char)) (row : Row) : Bool :=
  cond.all (atom_matches row)

/-- Does a row satisfy the delete statement's `WHERE` disjunction? -/
def row_deleted (conds : List (List (List Char × List Char)))
    (row : Row) : Bool :=
  conds.any (fun c => cond_matches c row)

/-- `PostgresAccessor.delete_by_keys` (lines 212-280) over an explicit table
state: build the per-record conditions; if none, return 0 without touching
the database; otherwise execute the one `DELETE` statement (`db_fail`
injects the exception path: rollback, table unchanged, 0 returned) and
report `cursor.rowcount`, the number of rows removed. -/
def run_delete_by_keys (db_fail : Bool) (table : List Row)
    (records : List Record) (field_mapping : List (List Char × List Char))
    (primary_keys : List (List Char)) : List Row × Nat :=
  if records.isEmpty then (table, 0)
  else
    let conds := delete_conditions field_mapping primary_keys records
    if conds.isEmpty then (table, 0)
    else if db_fail then (table, 0)
    else
      let remaining := table.filter (fun row => !row_deleted conds row)
      (remaining, table.length - remaining.length)

/-! ## Salesforce pagination (`SalesforceAccessor.query_batch`) -/

/-- One page fetch as seen by `query_batch`: `none` models a failed request
(non-200 status or a transport exception), `some (records, done)` a JSON
page with its record array and completion flag (`done` defaults to true
when absent, as in `result.get('done', True)`). -/
abbrev PageFetch : Type := Option (List Record × Bool)

/-- The batches `query_batch` (`salesforce_accessor.py` lines 50-126) yields
when the successive page requests answer as `feed` prescribes.  A failed
initial request returns with no yields; a non-empty record array is yielded
and an empty one skipped; while `done` is false the next fetch is issued,
and a failed fetch breaks out of the loop, ending the generator exactly as
normal exhaustion does. -/
def query_batch_yields : List PageFetch → List (List Record)
  | [] => []
  | none :: _ => []
  | some (recs, d) :: rest =>
    (if recs.isEmpty then [] else [recs])
      ++ (if d then [] else query_batch_yields rest)

/-- Total number of records in a list of batches. -/
def total_len (bs : List (List Record)) : Nat :=
  (bs.map List.length).sum

/-! ## Sync orchestration (`DataSyncer.sync`) -/

/-- A call the orchestrator issues against the Postgres accessor. -/
inductive PgCall where
  | upsert (records : List Record) : PgCall
  | deleteKeys (records : List Record) : PgCall
  | set_watermark (ts : List Char) : PgCall

/-- Observable state of one `DataSyncer.sync` run: the `success` flag of the
returned dict, the final table and watermark, the accessor calls issued (in
order), and the `stats` counters. -/
structure SyncRun where
  success : Bool
  table : List Row
  watermark : Option (List Char)
  calls : List PgCall
  fetched : Nat
  upserted : Nat
  deleted : Nat
  batches : Nat

/-- Python `r.get('IsDeleted', False)` under `if`/`if not`: the truthiness
of the record's deletion flag (`data_syncer.py` lines 94-95). -/
def is_deleted_flag (r : Record) : Bool :=
  truthy ((dictGet r isDeletedT).getD (Val.vbool false))

/-- One iteration of the batch loop (`data_syncer.py` lines 89-118):
partition the batch by the deletion flag, call `upsert_batch` on the active
records unless empty, then `delete_by_keys` on the deleted records unless
empty, accumulating the counters. -/
def sync_step (field_mapping : List (List Char × List Char))
    (primary_keys : List (List Char)) (st : SyncRun)
    (batch : List Record) : SyncRun :=
  let active := batch.filter (fun r => !is_deleted_flag r)
  let dels := batch.filter (fun r => is_deleted_flag r)
  let st1 := { st with
    batches := st.batches + 1
    fetched := st.fetched + batch.length }
  let st2 :=
    if active.isEmpty then st1
    else
      let res := run_upsert_batch false st1.table active field_mapping
        primary_keys
      { st1 with
        table := res.1
        upserted := st1.upserted + res.2.1
        calls := st1.calls ++ [PgCall.upsert active] }
  if dels.isEmpty then st2
  else
    let res := run_delete_by_keys false st2.table dels field_mapping
      primary_keys
    { st2 with
      table := res.1
      deleted := st2.deleted + res.2
      calls := st2.calls ++ [PgCall.deleteKeys dels] }

/-- `DataSyncer.sync` (`data_syncer.py` lines 44-155) for one table, over
explicit inputs: `table_exists` is the `table_exists` lookup, `wm` the
stored watermark, `sync_start` the timestamp captured after reading the
watermark and before the first fetch (`datetime.utcnow()` at line 79,
`strftime`-formatted), `feed` the successive page-fetch outcomes, and
`table0` the target table contents.  Batch applies succeed (the claims do
not exercise `ApplyError`).  After the loop, the watermark is committed to
`sync_start` exactly when `total_fetched > 0` (lines 121-124), and the run
returns a dict with `success: True` (line 143). -/
def sync_run (base_query : List Char) (wm : Option (List Char))
    (sync_start : List Char) (feed : List PageFetch) (table0 : List Row)
    (field_mapping : List (List Char × List Char))
    (primary_keys : List (List Char)) (table_exists : Bool) : SyncRun :=
  if table_exists then
    let _query := build_query_with_watermark base_query wm
    let st := (query_batch_yields feed).foldl
      (sync_step field_mapping primary_keys)
      { success := true, table := table0, watermark := wm, calls := []
        fetched := 0, upserted := 0, deleted := 0, batches := 0 }
    if 0 < st.fetched then
      { st with
        watermark := some sync_start
        calls := st.calls ++ [PgCall.set_watermark sync_start] }
    else st
  else
    { success := false, table := table0, watermark := wm, calls := []
      fetched := 0, upserted := 0, deleted := 0, batches := 0 }

/-- The accessor calls the spec prescribes for one batch: `upsertBatch` on
the active subset unless empty, then `deleteByKeys` on the deleted subset
unless empty. -/
def batch_calls (batch : List Record) : List PgCall :=
  (if (batch.filter (fun r => !is_deleted_flag r)).isEmpty then []
   else [PgCall.upsert (batch.filter (fun r => !is_deleted_flag r))])
    ++ (if (batch.filter (fun r => is_deleted_flag r)).isEmpty then []
        else [PgCall.deleteKeys (batch.filter (fun r => is_deleted_flag r))])


/-! ## Concrete example inputs used by witnesses and counterexamples -/

/-- The ASCII apostrophe (avoids quoting issues inside query literals). -/
def sqC : Char := Char.ofNat 39

/-- The timestamp `2024-01-01T00:00:00Z` used as a stored watermark. -/
def tsT : List Char := "2024-01-01T00:00:00Z".toList

/-- The timestamp captured as `sync_start_time` in the examples. -/
def startT : List Char := "2024-06-02T03:04:05Z".toList

/-- Example base query with an existing filter clause:
`SELECT Id FROM Obj WHERE Status='A'`. -/
def qWhereEx : List Char :=
  "SELECT Id FROM Obj WHERE Status=".toList ++ [sqC, 'A', sqC]

/-- Expected rewrite of `qWhereEx` under watermark `tsT`: fields injected,
watermark condition conjoined after the existing filter. -/
def qWhereExOut : List Char :=
  "SELECT Id, IsDeleted, LastModifiedDate FROM Obj WHERE Status=".toList
    ++ [sqC, 'A', sqC] ++ andLastModT ++ tsT

/-- Example base query with a trailing row limit: `SELECT Id FROM Obj LIMIT 10`. -/
def qLimitEx : List Char := "SELECT Id FROM Obj LIMIT 10".toList

/-- Expected rewrite of `qLimitEx` under watermark `tsT`: the new filter
clause sits before the `LIMIT` clause (the rebuild leaves a double space
before `10`). -/
def qLimitExOut : List Char :=
  ("SELECT Id, IsDeleted, LastModifiedDate FROM Obj WHERE " ++
    "LastModifiedDate > 2024-01-01T00:00:00Z LIMIT  10").toList

/-- Plain base query for the idempotence counterexample. -/
def qPlainEx : List Char := "SELECT Id FROM Obj".toList

/-- The once-rewritten form of `qPlainEx` under watermark `tsT`. -/
def qPlainOnce : List Char :=
  ("SELECT Id, IsDeleted, LastModifiedDate FROM Obj WHERE " ++
    "LastModifiedDate > 2024-01-01T00:00:00Z").toList

/-- Base query whose filter (not projection) mentions `IsDeleted`. -/
def qFilterIsDel : List Char :=
  "SELECT Id FROM Obj WHERE IsDeleted = false".toList

/-- Example field mapping `Id -> id`, `Name -> name`. -/
def fmEx : List (List Char × List Char) :=
  [("Id".toList, "id".toList), ("Name".toList, "name".toList)]

/-- Example single-column key `id`. -/
def pksEx : List (List Char) := ["id".toList]

/-- An active record (no `IsDeleted` field, hence flag falsy). -/
def recActive : Record :=
  [("Id".toList, Val.vstr ("1".toList)), ("Name".toList, Val.vstr ("Alice".toList))]

/-- A record with the same key as `recActive` but a different name. -/
def recBob : Record :=
  [("Id".toList, Val.vstr ("1".toList)), ("Name".toList, Val.vstr ("Bob".toList))]

/-- A soft-deleted record (`IsDeleted: true`). -/
def recDeleted : Record :=
  [("Id".toList, Val.vstr ("2".toList)), ("IsDeleted".toList, Val.vbool true)]

/-- The target row `recActive` maps to under `fmEx`. -/
def rowAlice : Row :=
  [("id".toList, Val.vstr ("1".toList)), ("name".toList, Val.vstr ("Alice".toList))]

/-- The target row `recBob` maps to under `fmEx`. -/
def rowBob : Row :=
  [("id".toList, Val.vstr ("1".toList)), ("name".toList, Val.vstr ("Bob".toList))]

/-- Example base query for orchestrator runs. -/
def baseEx : List Char := "SELECT Id, Name FROM Contact".toList

/-- One-page feed delivering an active and a deleted record. -/
def feedC1 : List PageFetch := [some ([recActive, recDeleted], true)]

/-- Feed whose page 1 succeeds (not done), page 2 request fails, and a
third page exists that is never reached. -/
def feedC2 : List PageFetch :=
  [some ([recActive], false), none, some ([recDeleted], true)]

/-- Feed that fails on the second page request. -/
def feedFail3 : List PageFetch := [some ([recActive], false), none]

/-- Feed that completes normally after one page. -/
def feedOk3 : List PageFetch := [some ([recActive], true)]

/-- Composite-key field mapping `Id -> id`, `Region -> region`. -/
def fmReg : List (List Char × List Char) :=
  [("Id".toList, "id".toList), ("Region".toList, "region".toList)]

/-- Composite key `(id, region)`. -/
def pksReg : List (List Char) := ["id".toList, "region".toList]

/-- A record carrying only `Id`: its `region` key value is unresolvable. -/
def recNoRegion : Record := [("Id".toList, Val.vstr ("A".toList))]

/-- A stored row agreeing with `recNoRegion` on `id` but carrying a region
value the record does not mention. -/
def rowOtherRegion : Row :=
  [("id".toList, Val.vstr ("A".toList)), ("region".toList, Val.vstr ("B".toList))]

/-- A record resolving none of the key columns. -/
def recNoKeys : Record := [("Other".toList, Val.vstr ("x".toList))]

/-- Filler record number `i` with a key (`x` followed by the digits of
`i`) distinct from `1` and from every other filler. -/
def mkOtherRec (i : Nat) : Record :=
  [("Id".toList, Val.vstr ('x' :: Nat.toDigits 10 i)),
   ("Name".toList, Val.vstr ("N".toList))]

/-- The target row `mkOtherRec i` maps to under `fmEx`. -/
def mkOtherRow (i : Nat) : Row :=
  [("id".toList, Val.vstr ('x' :: Nat.toDigits 10 i)),
   ("name".toList, Val.vstr ("N".toList))]

/-- A 101-record batch whose first and last records share key `1` (Alice
then Bob) with 99 distinct fillers between them: the duplicate pair
straddles the 100-row page boundary of `execute_values`. -/
def recs101 : List Record :=
  recActive :: ((List.range 99).map mkOtherRec ++ [recBob])

/-- The table `recs101` produces from an empty table: page 1 inserts Alice
and the fillers, page 2's statement conflicts with Alice's row and updates
it to Bob's values. -/
def table101 : List Row :=
  rowBob :: (List.range 99).map mkOtherRow

/-! ## Helper lemmas on the string primitives -/

/-- A list starts with itself, whatever follows. -/
theorem startsWithL_append_self (p t : List Char) :
    startsWithL p (p ++ t) = true := by
  induction p with
  | nil => rfl
  | cons c cs ih => simp [startsWithL, ih]

/-- A pattern at the head of a string occurs in it. -/
theorem containsL_of_startsWithL (s p : List Char)
    (h : startsWithL p s = true) : containsL s p = true := by
  cases s with
  | nil =>
    cases p with
    | nil => rfl
    | cons c cs => simp [startsWithL] at h
  | cons c t => simp [containsL, h]

/-- Occurrence in the right part survives prepending. -/
theorem containsL_append_right (s t p : List Char)
    (h : containsL t p = true) : containsL (s ++ t) p = true := by
  induction s with
  | nil => simpa using h
  | cons c s ih => simp [containsL, ih]

/-- A field-injection block is the identity when the field name already
occurs in the query text. -/
theorem ensure_field_keeps (f q : List Char) (h : containsL q f = true) :
    ensure_field f q = q := by
  simp [ensure_field, h]

/-- When the field name is absent and a `FROM` keyword is present, the
field-injection block makes the name occur in the result. -/
theorem ensure_field_adds (f q : List Char) (h1 : containsL q f = false)
    (h2 : containsL (upperL q) fromT = true) :
    containsL (ensure_field f q) f = true := by
  simp only [ensure_field, h1, h2, Bool.false_eq_true, if_false, if_true]
  simp only [List.append_assoc]
  apply containsL_append_right
  apply containsL_append_right
  exact containsL_of_startsWithL _ _ (startsWithL_append_self f _)

/-! ## Claims C4, C5, C6: the query rewrite -/

/-- C6 counterexample: for the base query
`SELECT Id FROM Obj WHERE IsDeleted = false` the rewrite leaves `IsDeleted`
out of the projection (the presence check is a substring test over the
whole query text, and the name already occurs in the filter), refuting the
claim that the rewrite ensures the field is present in the projection. -/
theorem c6_counterexample :
    containsL (build_query_with_watermark qFilterIsDel none) isDeletedT = true ∧
    containsL (projection_of (build_query_with_watermark qFilterIsDel none))
      isDeletedT = false := by
  exact ⟨by decide, by decide⟩

/-- C6 (amended): each field-injection block of the rewrite ensures the
field name occurs somewhere in the query text rather than in the
projection: a query already containing the name anywhere (for example only
in the filter clause) is returned unchanged — so the name is never
duplicated, but the projection may remain without it — and when the name
occurs nowhere and a `FROM` keyword is present, the field is appended to
the selection list, making the name occur in the result. -/
theorem ensure_field_presence (q : List Char) :
    (containsL q isDeletedT = true → ensure_field isDeletedT q = q) ∧
    (containsL q isDeletedT = false → containsL (upperL q) fromT = true →
      containsL (ensure_field isDeletedT q) isDeletedT = true) ∧
    (containsL q lastModT = true → ensure_field lastModT q = q) ∧
    (containsL q lastModT = false → containsL (upperL q) fromT = true →
      containsL (ensure_field lastModT q) lastModT = true) :=
  ⟨ensure_field_keeps isDeletedT q, ensure_field_adds isDeletedT q,
    ensure_field_keeps lastModT q, ensure_field_adds lastModT q⟩

/-- C6 witness: both branches of the amended claim at concrete queries. -/
theorem c6_witness :
    ensure_field isDeletedT qFilterIsDel = qFilterIsDel ∧
    containsL (ensure_field isDeletedT qPlainEx) isDeletedT = true :=
  ⟨(ensure_field_presence qFilterIsDel).1 (by decide),
    (ensure_field_presence qPlainEx).2.1 (by decide) (by decide)⟩

/-- C4 counterexample: rewriting the already-rewritten
`SELECT Id FROM Obj` a second time under the same watermark appends a
duplicate watermark conjunct, so the rewrite is not idempotent. -/
theorem c4_counterexample :
    build_query_with_watermark
        (build_query_with_watermark qPlainEx (some tsT)) (some tsT)
      ≠ build_query_with_watermark qPlainEx (some tsT) := by
  decide

/-- C4 (amended): the rewrite is a pure function of its two inputs
(deterministic), but it is not idempotent for a present watermark: on any
query already containing the `IsDeleted` and `LastModifiedDate` tokens and
a `WHERE` clause — the shape of every once-rewritten query with a present
watermark — a second application appends one more copy of the watermark
conjunct; with an absent watermark it returns such a query unchanged. -/
theorem rewrite_reapplication (q ts : List Char)
    (h1 : containsL q isDeletedT = true) (h2 : containsL q lastModT = true)
    (h3 : containsL (upperL q) whereT = true) :
    build_query_with_watermark q (some ts) = rstripL q ++ andLastModT ++ ts ∧
    build_query_with_watermark q none = q := by
  constructor
  · simp [build_query_with_watermark, ensured_query,
      ensure_field_keeps isDeletedT q h1, ensure_field_keeps lastModT q h2, h3]
  · simp [build_query_with_watermark, ensured_query,
      ensure_field_keeps isDeletedT q h1, ensure_field_keeps lastModT q h2]

/-- C4 witness: re-application to the once-rewritten form of
`SELECT Id FROM Obj` appends the duplicate conjunct. -/
theorem c4_witness :
    build_query_with_watermark qPlainOnce (some tsT)
      = rstripL qPlainOnce ++ andLastModT ++ tsT ∧
    build_query_with_watermark qPlainOnce none = qPlainOnce :=
  rewrite_reapplication qPlainOnce tsT (by decide) (by decide) (by decide)

/-- C5: with a present watermark, when the field-ensured query contains a
`WHERE` clause the watermark condition is appended as a conjunction after
the existing text; when it contains no `WHERE` but a `LIMIT` clause, a new
`WHERE` clause is inserted before the `LIMIT`; and the two example queries
of the claim rewrite to exactly the expected results. -/
theorem watermark_filter_placement (q ts : List Char) :
    (containsL (upperL (ensured_query q)) whereT = true →
      build_query_with_watermark q (some ts)
        = rstripL (ensured_query q) ++ andLastModT ++ ts) ∧
    (containsL (upperL (ensured_query q)) whereT = false →
      containsL (upperL (ensured_query q)) limitT = true →
      build_query_with_watermark q (some ts)
        = rstripL ((splitOnL (ensured_query q) limitT).headD [])
          ++ whereLastModT ++ ts ++ limitSpaceT
          ++ intercalateL limitT ((splitOnL (ensured_query q) limitT).drop 1)) ∧
    build_query_with_watermark qWhereEx (some tsT) = qWhereExOut ∧
    build_query_with_watermark qLimitEx (some tsT) = qLimitExOut := by
  refine ⟨?_, ?_, by decide, by decide⟩
  · intro h
    simp [build_query_with_watermark, h]
  · intro h1 h2
    simp [build_query_with_watermark, h1, h2]

/-- C5 witness: both placement branches at the claim's example queries. -/
theorem c5_witness :
    build_query_with_watermark qWhereEx (some tsT)
      = rstripL (ensured_query qWhereEx) ++ andLastModT ++ tsT ∧
    build_query_with_watermark qLimitEx (some tsT)
      = rstripL ((splitOnL (ensured_query qLimitEx) limitT).headD [])
        ++ whereLastModT ++ tsT ++ limitSpaceT
        ++ intercalateL limitT ((splitOnL (ensured_query qLimitEx) limitT).drop 1) :=
  ⟨(watermark_filter_placement qWhereEx tsT).1 (by decide),
    (watermark_filter_placement qLimitEx tsT).2.1 (by decide) (by decide)⟩

/-! ## Claims C7, C8, C9: the Postgres batch operations -/

/-- C7 counterexample: with composite key `(id, region)`, the record
carrying only `Id = A` has an unresolvable `region` key value, yet it is
not excluded: it contributes the partial condition `id = 'A'`, which
matches and deletes the stored row whose region is `B`, reporting a deleted
count of 1 rather than 0. -/
theorem c7_counterexample :
    delete_conditions fmReg pksReg [recNoRegion]
      = [[("id".toList, "A".toList)]] ∧
    run_delete_by_keys false [rowOtherRegion] [recNoRegion] fmReg pksReg
      = ([], 1) := by
  exact ⟨rfl, rfl⟩

/-- C7 (amended): a record none of whose key column values resolve
contributes nothing: it is excluded from the generated delete condition,
and the outcome of `delete_by_keys` (rows removed and reported count) is
the same as if the record were not in the batch.  (A record with some
resolvable and some unresolvable key values, by contrast, contributes a
condition over only its resolved columns, which can match rows regardless
of the unresolved columns — see the counterexample.) -/
theorem delete_skips_fully_unresolvable
    (fm : List (List Char × List Char)) (pks : List (List Char))
    (r : Record) (rs1 rs2 : List Record)
    (h : record_delete_condition fm pks r = []) :
    delete_conditions fm pks (rs1 ++ r :: rs2)
      = delete_conditions fm pks (rs1 ++ rs2) ∧
    ∀ db table, run_delete_by_keys db table (rs1 ++ r :: rs2) fm pks
      = run_delete_by_keys db table (rs1 ++ rs2) fm pks := by
  have hconds : delete_conditions fm pks (rs1 ++ r :: rs2)
      = delete_conditions fm pks (rs1 ++ rs2) := by
    unfold delete_conditions
    rw [List.filterMap_append, List.filterMap_append, List.filterMap_cons]
    simp [h]
  refine ⟨hconds, ?_⟩
  intro db table
  unfold run_delete_by_keys
  rw [hconds]
  cases hrs : rs1 ++ rs2 with
  | nil =>
    have : delete_conditions fm pks [] = [] := rfl
    simp [hrs, this]
  | cons x xs =>
    simp [hrs]

/-- C7 witness: a record resolving no key column is dropped from the
condition list and leaves the delete outcome unchanged. -/
theorem c7_witness :
    delete_conditions fmReg pksReg ([recNoRegion] ++ recNoKeys :: [])
      = delete_conditions fmReg pksReg ([recNoRegion] ++ []) ∧
    run_delete_by_keys false [rowOtherRegion]
        ([recNoRegion] ++ recNoKeys :: []) fmReg pksReg
      = run_delete_by_keys false [rowOtherRegion] ([recNoRegion] ++ [])
        fmReg pksReg :=
  ⟨(delete_skips_fully_unresolvable fmReg pksReg recNoKeys [recNoRegion] []
      (by decide)).1,
    (delete_skips_fully_unresolvable fmReg pksReg recNoKeys [recNoRegion] []
      (by decide)).2 false [rowOtherRegion]⟩

/-- One page's successful statement folds exactly its rows into the
table. -/
theorem apply_upsert_statement_some (cols pks : List (List Char))
    (table t2 : List Row) (page : List (List Val))
    (h : apply_upsert_statement cols pks table page = some t2) :
    t2 = page.foldl (fun t vs => upsert_one pks t (cols.zip vs)) table := by
  unfold apply_upsert_statement at h
  split at h
  · simp at h
  · split at h
    · simp at h
    · split at h
      · simp at h
      · injection h with h2
        exact h2.symm

/-- A successful `execute_values` call folds every row of every page into
the table, in order: the outcome is the whole batch applied, never a
prefix. -/
theorem apply_upsert_pages_some (cols pks : List (List Char)) :
    ∀ (pages : List (List (List Val))) (table t2 : List Row),
      apply_upsert_pages cols pks table pages = some t2 →
      t2 = pages.flatten.foldl
        (fun t vs => upsert_one pks t (cols.zip vs)) table
  | [], table, t2, h => by
    simp [apply_upsert_pages] at h
    simp [h]
  | page :: rest, table, t2, h => by
    unfold apply_upsert_pages at h
    cases hs : apply_upsert_statement cols pks table page with
    | none =>
      rw [hs] at h
      simp at h
    | some t1 =>
      rw [hs] at h
      have h1 := apply_upsert_statement_some cols pks table t1 page hs
      have h2 := apply_upsert_pages_some cols pks rest t1 t2 h
      rw [h2, h1, List.flatten_cons, List.foldl_append]

/-- The pages of a list re-concatenate to the list. -/
theorem chunksFuel_flatten (n : Nat) :
    ∀ (f : Nat) (l : List (List Val)), (chunksFuel n f l).flatten = l
  | 0, [] => rfl
  | 0, x :: t => by simp [chunksFuel]
  | Nat.succ f, [] => rfl
  | Nat.succ f, x :: t => by
    simp only [chunksFuel, List.flatten_cons, chunksFuel_flatten n f]
    exact List.take_append_drop n (x :: t)

/-- `chunksOf` pages re-concatenate to the original rows. -/
theorem chunksOf_flatten (n : Nat) (l : List (List Val)) :
    (chunksOf n l).flatten = l :=
  chunksFuel_flatten n l.length l

/-- A non-empty list no longer than the page size is a single page. -/
theorem chunksOf_single (n : Nat) (l : List (List Val)) (h1 : l ≠ [])
    (h2 : l.length ≤ n) : chunksOf n l = [l] := by
  cases l with
  | nil => exact absurd rfl h1
  | cons x t =>
    have ht : (x :: t).take n = x :: t := List.take_of_length_le h2
    have hd : (x :: t).drop n = [] := List.drop_eq_nil_of_le h2
    simp [chunksOf, chunksFuel, ht, hd]

/-- C8: each batch is one transaction over the explicit table state: the
exception path (injected failure) rolls back — table unchanged, zero
reported — for upsert and delete alike; a statement error in any
`execute_values` page likewise rolls the whole transaction, earlier pages
included, back to the unchanged table with zero reported; and a successful
upsert returns the whole batch applied, row by row in order — the table is
never a partial (prefix) application.  (On success the reported count is
the last page's `cursor.rowcount`, not the batch size; the claim's
assertions are all conditioned on failure.) -/
theorem batch_transaction_rollback (table : List Row) (rs : List Record)
    (fm : List (List Char × List Char)) (pks : List (List Char)) :
    run_upsert_batch true table rs fm pks = (table, 0, 0) ∧
    run_delete_by_keys true table rs fm pks = (table, 0) ∧
    (apply_upsert_pages (fm.map (fun p => p.2)) pks table
        (chunksOf execute_values_page_size (rs.map (record_row fm)))
        = none →
      run_upsert_batch false table rs fm pks = (table, 0, 0)) ∧
    (run_upsert_batch false table rs fm pks = (table, 0, 0) ∨
      (run_upsert_batch false table rs fm pks).1
        = (rs.map (record_row fm)).foldl
            (fun t vs => upsert_one pks t ((fm.map (fun p => p.2)).zip vs))
            table) := by
  refine ⟨?_, ?_, ?_, ?_⟩
  · cases h : rs.isEmpty <;> simp [run_upsert_batch, h]
  · cases h : rs.isEmpty
    · cases h2 : (delete_conditions fm pks rs).isEmpty <;>
        simp [run_delete_by_keys, h, h2]
    · simp [run_delete_by_keys, h]
  · intro hA
    cases h : rs.isEmpty
    · simp [run_upsert_batch, h, hA]
    · simp [run_upsert_batch, h]
  · cases h : rs.isEmpty
    · cases hA : apply_upsert_pages (fm.map (fun p => p.2)) pks table
          (chunksOf execute_values_page_size (rs.map (record_row fm))) with
      | none => exact Or.inl (by simp [run_upsert_batch, h, hA])
      | some t2 =>
        refine Or.inr ?_
        have ht2 := apply_upsert_pages_some (fm.map (fun p => p.2)) pks
          (chunksOf execute_values_page_size (rs.map (record_row fm)))
          table t2 hA
        rw [chunksOf_flatten] at ht2
        simp only [run_upsert_batch, h, hA]
        simpa using ht2
    · exact Or.inl (by simp [run_upsert_batch, h])

/-- C8 witness: the rollback paths at concrete inputs — a failing page
statement (duplicate key tuples in one page) and an injected database
failure both leave the table unchanged and report zero. -/
theorem c8_witness :
    run_upsert_batch false [] [recActive, recBob] fmEx pksEx = ([], 0, 0) ∧
    run_upsert_batch true [rowAlice] [recBob] fmEx pksEx
      = ([rowAlice], 0, 0) :=
  ⟨(batch_transaction_rollback [] [recActive, recBob] fmEx pksEx).2.2.1
      (by rfl),
    (batch_transaction_rollback [rowAlice] [recBob] fmEx pksEx).1⟩

/-- C9 counterexample: a batch holding two records with the same key
(`Id = 1`, names Alice and Bob) lands both in the same 100-row
`execute_values` page, so the one page statement fails (PostgreSQL refuses
to affect one row twice in one statement) and the whole batch rolls back:
starting from an empty table no row at all is stored, starting from a
table already holding Alice the row keeps Alice's values — in neither case
does the table end with exactly one row carrying the last record's (Bob's)
values — and zero upserted is reported. -/
theorem c9_counterexample :
    run_upsert_batch false [] [recActive, recBob] fmEx pksEx = ([], 0, 0) ∧
    run_upsert_batch false [rowAlice] [recActive, recBob] fmEx pksEx
      = ([rowAlice], 0, 0) := by
  exact ⟨rfl, rfl⟩

set_option maxRecDepth 40000 in
/-- C9 (amended): when the two equal-key records fall inside the same
100-row `execute_values` page — in particular in every batch of at most
100 records — that page's statement fails and the whole batch rolls back:
table unchanged, zero reported.  When the duplicates fall in different
pages the pages run as separate statements and the batch commits with the
later page updating the earlier row — the 101-record batch `recs101`
(Alice first, Bob 101st, same key) ends with exactly one row for that key,
bearing Bob's values, the last page's rowcount 1 being reported — and the
same last-write-wins outcome holds across separate upsert calls. -/
theorem upsert_duplicate_keys_roll_back (table : List Row)
    (rs : List Record) (fm : List (List Char × List Char))
    (pks : List (List Char))
    (hlen : rs.length ≤ execute_values_page_size)
    (h : keysDistinct ((rs.map (record_row fm)).map
      (fun vs => rowKey pks ((fm.map (fun p => p.2)).zip vs))) = false) :
    run_upsert_batch false table rs fm pks = (table, 0, 0) ∧
    run_upsert_batch false [] recs101 fmEx pksEx = (table101, 1, 0) ∧
    table101.filter (fun row =>
      keyTupleEq (rowKey pksEx row) [Val.vstr ("1".toList)]) = [rowBob] ∧
    run_upsert_batch false [] [recActive] fmEx pksEx = ([rowAlice], 1, 0) ∧
    run_upsert_batch false [rowAlice] [recBob] fmEx pksEx
      = ([rowBob], 1, 0) := by
  refine ⟨?_, rfl, rfl, rfl, rfl⟩
  cases hE : rs.isEmpty
  · have hne : rs.map (record_row fm) ≠ [] := by
      cases rs with
      | nil => simp [List.isEmpty] at hE
      | cons x t => simp
    have hlen2 : (rs.map (record_row fm)).length
        ≤ execute_values_page_size := by
      rw [List.length_map]
      exact hlen
    have hch := chunksOf_single execute_values_page_size
      (rs.map (record_row fm)) hne hlen2
    have hstmt : apply_upsert_statement (fm.map (fun p => p.2)) pks table
        (rs.map (record_row fm)) = none := by
      unfold apply_upsert_statement
      rw [h]
      simp
    have hpages : apply_upsert_pages (fm.map (fun p => p.2)) pks table
        (chunksOf execute_values_page_size (rs.map (record_row fm)))
        = none := by
      rw [hch]
      simp [apply_upsert_pages, hstmt]
    simp [run_upsert_batch, hE, hpages]
  · have hnil : rs = [] := List.isEmpty_iff.mp hE
    subst hnil
    simp [keysDistinct] at h

/-- C9 witness: the duplicate-key two-record (single-page) batch
Alice/Bob rolls back against a table already holding Bob's row. -/
theorem c9_witness :
    run_upsert_batch false [rowBob] [recActive, recBob] fmEx pksEx
      = ([rowBob], 0, 0) :=
  (upsert_duplicate_keys_roll_back [rowBob] [recActive, recBob] fmEx pksEx
    (by decide) (by rfl)).1

/-! ## Helper lemmas on the sync loop -/

/-- Totals distribute over cons. -/
theorem total_len_cons (b : List Record) (bs : List (List Record)) :
    total_len (b :: bs) = b.length + total_len bs := by
  simp [total_len]

/-- Effect of one loop iteration on the observable components: the calls of
the batch are appended, the counters advance, and neither the watermark nor
the success flag is touched inside the loop. -/
theorem sync_step_spec (fm : List (List Char × List Char))
    (pks : List (List Char)) (st : SyncRun) (b : List Record) :
    (sync_step fm pks st b).calls = st.calls ++ batch_calls b ∧
    (sync_step fm pks st b).fetched = st.fetched + b.length ∧
    (sync_step fm pks st b).batches = st.batches + 1 ∧
    (sync_step fm pks st b).watermark = st.watermark ∧
    (sync_step fm pks st b).success = st.success := by
  cases h1 : (b.filter (fun r => !is_deleted_flag r)).isEmpty <;>
    cases h2 : (b.filter (fun r => is_deleted_flag r)).isEmpty <;>
      simp [sync_step, batch_calls, h1, h2, List.append_assoc]

/-- Accumulated effect of the whole batch loop. -/
theorem sync_foldl_spec (fm : List (List Char × List Char))
    (pks : List (List Char)) (bs : List (List Record)) (st : SyncRun) :
    ((bs.foldl (sync_step fm pks) st).calls
      = st.calls ++ (bs.map batch_calls).flatten) ∧
    ((bs.foldl (sync_step fm pks) st).fetched = st.fetched + total_len bs) ∧
    ((bs.foldl (sync_step fm pks) st).batches = st.batches + bs.length) ∧
    ((bs.foldl (sync_step fm pks) st).watermark = st.watermark) ∧
    ((bs.foldl (sync_step fm pks) st).success = st.success) := by
  induction bs generalizing st with
  | nil => simp [total_len]
  | cons b bs ih =>
    have hstep := sync_step_spec fm pks st b
    have hrest := ih (sync_step fm pks st b)
    simp only [List.foldl_cons]
    refine ⟨?_, ?_, ?_, ?_, ?_⟩
    · rw [hrest.1, hstep.1]
      simp [List.append_assoc]
    · rw [hrest.2.1, hstep.2.1, total_len_cons]
      omega
    · rw [hrest.2.2.1, hstep.2.2.1]
      simp [List.length_cons]
      omega
    · rw [hrest.2.2.2.1, hstep.2.2.2.1]
    · rw [hrest.2.2.2.2, hstep.2.2.2.2]

/-- A list whose `isEmpty` is false is not nil. -/
theorem ne_nil_of_isEmpty_false {α : Type} {l : List α}
    (h : l.isEmpty = false) : l ≠ [] :=
  List.isEmpty_eq_false.mp h

/-- Membership inversion for an upsert call in one batch's call list. -/
theorem mem_batch_calls_upsert (b rs : List Record)
    (h : PgCall.upsert rs ∈ batch_calls b) :
    rs = b.filter (fun r => !is_deleted_flag r) ∧ rs ≠ [] := by
  unfold batch_calls at h
  rcases List.mem_append.mp h with h | h
  · split at h
    · simp at h
    · next hE =>
      have := List.mem_singleton.mp h
      injection this with hrs
      subst hrs
      exact ⟨rfl, ne_nil_of_isEmpty_false (Bool.of_not_eq_true hE)⟩
  · split at h
    · simp at h
    · have := List.mem_singleton.mp h
      exact absurd this (by simp)

/-- Membership inversion for a delete call in one batch's call list. -/
theorem mem_batch_calls_delete (b rs : List Record)
    (h : PgCall.deleteKeys rs ∈ batch_calls b) :
    rs = b.filter (fun r => is_deleted_flag r) ∧ rs ≠ [] := by
  unfold batch_calls at h
  rcases List.mem_append.mp h with h | h
  · split at h
    · simp at h
    · have := List.mem_singleton.mp h
      exact absurd this (by simp)
  · split at h
    · simp at h
    · next hE =>
      have := List.mem_singleton.mp h
      injection this with hrs
      subst hrs
      exact ⟨rfl, ne_nil_of_isEmpty_false (Bool.of_not_eq_true hE)⟩

/-- A non-empty active subset produces its upsert call. -/
theorem upsert_mem_batch_calls (b : List Record)
    (h : (b.filter (fun r => !is_deleted_flag r)) ≠ []) :
    PgCall.upsert (b.filter (fun r => !is_deleted_flag r))
      ∈ batch_calls b := by
  unfold batch_calls
  apply List.mem_append.mpr
  left
  rw [if_neg (by simp [List.isEmpty_iff, h])]
  exact List.mem_singleton.mpr rfl

/-- A non-empty deleted subset produces its delete call. -/
theorem delete_mem_batch_calls (b : List Record)
    (h : (b.filter (fun r => is_deleted_flag r)) ≠ []) :
    PgCall.deleteKeys (b.filter (fun r => is_deleted_flag r))
      ∈ batch_calls b := by
  unfold batch_calls
  apply List.mem_append.mpr
  right
  rw [if_neg (by simp [List.isEmpty_iff, h])]
  exact List.mem_singleton.mpr rfl

/-- Unfolding of `sync_run` on an existing table in terms of the folded
loop state. -/
theorem sync_run_eq (base : List Char) (wm : Option (List Char))
    (start : List Char) (feed : List PageFetch) (table0 : List Row)
    (fm : List (List Char × List Char)) (pks : List (List Char)) :
    sync_run base wm start feed table0 fm pks true
      = (let stF := (query_batch_yields feed).foldl (sync_step fm pks)
          { success := true, table := table0, watermark := wm, calls := []
            fetched := 0, upserted := 0, deleted := 0, batches := 0 }
         if 0 < stF.fetched then
           { stF with
             watermark := some start
             calls := stF.calls ++ [PgCall.set_watermark start] }
         else stF) := by
  rfl

/-- Inversion of an upsert call over the full call list of a run. -/
theorem upsert_calls_inversion (bs : List (List Record))
    (tail : List PgCall) (htail : ∀ rs, PgCall.upsert rs ∉ tail)
    (rs : List Record)
    (h : PgCall.upsert rs ∈ (bs.map batch_calls).flatten ++ tail) :
    rs ≠ [] ∧ ∃ b ∈ bs, rs = b.filter (fun r => !is_deleted_flag r) := by
  rcases List.mem_append.mp h with h | h
  · rcases List.mem_flatten.mp h with ⟨l, hl, hmem⟩
    rcases List.mem_map.mp hl with ⟨b, hb, rfl⟩
    obtain ⟨heq, hne⟩ := mem_batch_calls_upsert b rs hmem
    exact ⟨hne, b, hb, heq⟩
  · exact absurd h (htail rs)

/-- Inversion of a delete call over the full call list of a run. -/
theorem delete_calls_inversion (bs : List (List Record))
    (tail : List PgCall) (htail : ∀ rs, PgCall.deleteKeys rs ∉ tail)
    (rs : List Record)
    (h : PgCall.deleteKeys rs ∈ (bs.map batch_calls).flatten ++ tail) :
    rs ≠ [] ∧ ∃ b ∈ bs, rs = b.filter (fun r => is_deleted_flag r) := by
  rcases List.mem_append.mp h with h | h
  · rcases List.mem_flatten.mp h with ⟨l, hl, hmem⟩
    rcases List.mem_map.mp hl with ⟨b, hb, rfl⟩
    obtain ⟨heq, hne⟩ := mem_batch_calls_delete b rs hmem
    exact ⟨hne, b, hb, heq⟩
  · exact absurd h (htail rs)

/-- A batch's non-empty active subset appears as an upsert call. -/
theorem upsert_calls_forward (bs : List (List Record)) (tail : List PgCall)
    (b : List Record) (hb : b ∈ bs)
    (hne : (b.filter (fun r => !is_deleted_flag r)) ≠ []) :
    PgCall.upsert (b.filter (fun r => !is_deleted_flag r))
      ∈ (bs.map batch_calls).flatten ++ tail :=
  List.mem_append.mpr (Or.inl (List.mem_flatten.mpr
    ⟨batch_calls b, List.mem_map_of_mem _ hb,
      upsert_mem_batch_calls b hne⟩))

/-- A batch's non-empty deleted subset appears as a delete call. -/
theorem delete_calls_forward (bs : List (List Record)) (tail : List PgCall)
    (b : List Record) (hb : b ∈ bs)
    (hne : (b.filter (fun r => is_deleted_flag r)) ≠ []) :
    PgCall.deleteKeys (b.filter (fun r => is_deleted_flag r))
      ∈ (bs.map batch_calls).flatten ++ tail :=
  List.mem_append.mpr (Or.inl (List.mem_flatten.mpr
    ⟨batch_calls b, List.mem_map_of_mem _ hb,
      delete_mem_batch_calls b hne⟩))

/-! ## Claims C1, C10: orchestration and pagination invariants -/

/-- C1: on an existing table, the accessor calls of a sync run are, per
fetched batch and in order, an upsert of exactly the records whose deletion
flag is falsy and a delete of exactly those whose flag is truthy — each
call skipped when its subset is empty — followed by a watermark commit to
the pre-extraction timestamp exactly when at least one record was fetched;
with zero records fetched the watermark (present or absent) is unchanged. -/
theorem sync_partition_and_watermark (base : List Char)
    (wm : Option (List Char)) (start : List Char) (feed : List PageFetch)
    (table0 : List Row) (fm : List (List Char × List Char))
    (pks : List (List Char)) :
    (sync_run base wm start feed table0 fm pks true).calls
      = ((query_batch_yields feed).map batch_calls).flatten
        ++ (if 0 < total_len (query_batch_yields feed)
            then [PgCall.set_watermark start] else []) ∧
    (sync_run base wm start feed table0 fm pks true).fetched
      = total_len (query_batch_yields feed) ∧
    (sync_run base wm start feed table0 fm pks true).watermark
      = (if 0 < total_len (query_batch_yields feed)
         then some start else wm) ∧
    ((sync_run base wm start feed table0 fm pks true).fetched = 0 →
      (sync_run base wm start feed table0 fm pks true).watermark = wm) ∧
    (∀ rs, PgCall.upsert rs
        ∈ (sync_run base wm start feed table0 fm pks true).calls →
      rs ≠ [] ∧ ∃ b ∈ query_batch_yields feed,
        rs = b.filter (fun r => !is_deleted_flag r)) ∧
    (∀ rs, PgCall.deleteKeys rs
        ∈ (sync_run base wm start feed table0 fm pks true).calls →
      rs ≠ [] ∧ ∃ b ∈ query_batch_yields feed,
        rs = b.filter (fun r => is_deleted_flag r)) ∧
    (∀ b ∈ query_batch_yields feed,
      ((b.filter (fun r => !is_deleted_flag r)) ≠ [] →
        PgCall.upsert (b.filter (fun r => !is_deleted_flag r))
          ∈ (sync_run base wm start feed table0 fm pks true).calls) ∧
      ((b.filter (fun r => is_deleted_flag r)) ≠ [] →
        PgCall.deleteKeys (b.filter (fun r => is_deleted_flag r))
          ∈ (sync_run base wm start feed table0 fm pks true).calls)) := by
  obtain ⟨hcalls, hfetched, hbatches, hwm, hsucc⟩ :=
    sync_foldl_spec fm pks (query_batch_yields feed)
      { success := true, table := table0, watermark := wm, calls := []
        fetched := 0, upserted := 0, deleted := 0, batches := 0 }
  rw [sync_run_eq]
  simp only []
  generalize hstF : (query_batch_yields feed).foldl (sync_step fm pks)
    { success := true, table := table0, watermark := wm, calls := []
      fetched := 0, upserted := 0, deleted := 0, batches := 0 } = stF
      at hcalls hfetched hwm ⊢
  simp only [List.nil_append, Nat.zero_add] at hcalls hfetched
  have hmain :
      (if 0 < stF.fetched then
        { stF with
          watermark := some start
          calls := stF.calls ++ [PgCall.set_watermark start] }
       else stF).calls
        = ((query_batch_yields feed).map batch_calls).flatten
          ++ (if 0 < total_len (query_batch_yields feed)
              then [PgCall.set_watermark start] else []) ∧
      (if 0 < stF.fetched then
        { stF with
          watermark := some start
          calls := stF.calls ++ [PgCall.set_watermark start] }
       else stF).fetched = total_len (query_batch_yields feed) ∧
      (if 0 < stF.fetched then
        { stF with
          watermark := some start
          calls := stF.calls ++ [PgCall.set_watermark start] }
       else stF).watermark
        = (if 0 < total_len (query_batch_yields feed)
           then some start else wm) := by
    by_cases hpos : 0 < total_len (query_batch_yields feed)
    · rw [if_pos (by rw [hfetched]; exact hpos), if_pos hpos, if_pos hpos]
      exact ⟨by simp [hcalls], by simp [hfetched], by simp⟩
    · rw [if_neg (by rw [hfetched]; exact hpos), if_neg hpos, if_neg hpos]
      exact ⟨by simp [hcalls, hpos], hfetched, hwm⟩
  obtain ⟨hc, hf, hw⟩ := hmain
  refine ⟨hc, hf, hw, ?_, ?_, ?_, ?_⟩
  · intro h0
    rw [hw]
    rw [hf] at h0
    rw [if_neg (by omega)]
  · intro rs h
    rw [hc] at h
    refine upsert_calls_inversion (query_batch_yields feed) _ ?_ rs h
    intro rs2
    split <;> simp
  · intro rs h
    rw [hc] at h
    refine delete_calls_inversion (query_batch_yields feed) _ ?_ rs h
    intro rs2
    split <;> simp
  · intro b hb
    constructor
    · intro hne
      rw [hc]
      exact upsert_calls_forward _ _ b hb hne
    · intro hne
      rw [hc]
      exact delete_calls_forward _ _ b hb hne

/-- C1 witness: a one-page run with one active and one deleted record
upserts the active one, deletes the deleted one, and commits the watermark
to the pre-extraction timestamp. -/
theorem c1_witness :
    (sync_run baseEx none startT feedC1 [] fmEx pksEx true).calls
      = [PgCall.upsert [recActive], PgCall.deleteKeys [recDeleted],
         PgCall.set_watermark startT] ∧
    (sync_run baseEx none startT feedC1 [] fmEx pksEx true).watermark
      = some startT := by
  have h := sync_partition_and_watermark baseEx none startT feedC1 [] fmEx
    pksEx
  constructor
  · rw [h.1]
    rfl
  · rw [h.2.2.1]
    rfl

/-- Every batch the paginator yields is non-empty: empty record arrays are
skipped rather than yielded (`salesforce_accessor.py` lines 94-98 and
117-121). -/
theorem query_batch_yields_nonempty :
    ∀ (feed : List PageFetch), ∀ b ∈ query_batch_yields feed, b ≠ []
  | [] => by simp [query_batch_yields]
  | none :: rest => by simp [query_batch_yields]
  | some (recs, d) :: rest => by
    intro b hb
    simp only [query_batch_yields] at hb
    rcases List.mem_append.mp hb with h | h
    · split at h
      · simp at h
      · next hE =>
        have hbe := List.mem_singleton.mp h
        subst hbe
        exact ne_nil_of_isEmpty_false (Bool.of_not_eq_true hE)
    · split at h
      · simp at h
      · exact query_batch_yields_nonempty rest b h

/-- A non-empty batch list has a positive record total. -/
theorem total_len_pos_of_yields_ne_nil (feed : List PageFetch)
    (h : query_batch_yields feed ≠ []) :
    0 < total_len (query_batch_yields feed) := by
  cases hy : query_batch_yields feed with
  | nil => exact absurd hy h
  | cons b bs =>
    have hb : b ≠ [] := query_batch_yields_nonempty feed b (by rw [hy]; simp)
    have : 0 < b.length := List.length_pos.mpr hb
    rw [total_len_cons]
    omega

/-- C10: every yielded batch is non-empty; hence a non-empty yield sequence
carries a positive record total, the orchestrator's batches counter counts
exactly the (non-empty) yielded batches, and whenever at least one batch
was processed the total-fetched counter is strictly positive. -/
theorem query_batches_nonempty_counters (feed : List PageFetch) :
    (∀ b ∈ query_batch_yields feed, b ≠ []) ∧
    (query_batch_yields feed ≠ [] →
      0 < total_len (query_batch_yields feed)) ∧
    (∀ base wm start table0 fm pks,
      (sync_run base wm start feed table0 fm pks true).batches
        = (query_batch_yields feed).length ∧
      (0 < (sync_run base wm start feed table0 fm pks true).batches →
        0 < (sync_run base wm start feed table0 fm pks true).fetched)) := by
  refine ⟨query_batch_yields_nonempty feed,
    total_len_pos_of_yields_ne_nil feed, ?_⟩
  intro base wm start table0 fm pks
  obtain ⟨hcalls, hfetched, hbatches, hwm, hsucc⟩ :=
    sync_foldl_spec fm pks (query_batch_yields feed)
      { success := true, table := table0, watermark := wm, calls := []
        fetched := 0, upserted := 0, deleted := 0, batches := 0 }
  have hb : (sync_run base wm start feed table0 fm pks true).batches
      = (query_batch_yields feed).length := by
    rw [sync_run_eq]
    simp only []
    split
    · simpa using hbatches
    · simpa using hbatches
  have hf : (sync_run base wm start feed table0 fm pks true).fetched
      = total_len (query_batch_yields feed) := by
    rw [sync_run_eq]
    simp only []
    split
    · simpa using hfetched
    · simpa using hfetched
  refine ⟨hb, ?_⟩
  intro hposb
  rw [hf]
  apply total_len_pos_of_yields_ne_nil
  intro hnil
  rw [hb, hnil] at hposb
  simp at hposb

/-- C10 witness: the one-page feed yields exactly one non-empty batch and
the run counts it. -/
theorem c10_witness :
    [recActive, recDeleted] ≠ ([] : List Record) ∧
    (sync_run baseEx none startT feedC1 [] fmEx pksEx true).batches = 1 := by
  have h := query_batches_nonempty_counters feedC1
  refine ⟨h.1 [recActive, recDeleted] ?_, ?_⟩
  · rw [show query_batch_yields feedC1 = [[recActive, recDeleted]] from rfl]
    exact List.mem_singleton.mpr rfl
  · rw [(h.2.2 baseEx none startT [] fmEx pksEx).1]
    rfl

/-! ## Claims C2, C3: failure handling -/

/-- Appending a failed fetch after the feed changes nothing: the generator
ends on failure exactly as it ends on exhaustion. -/
theorem yields_append_none :
    ∀ (pages : List PageFetch),
      query_batch_yields (pages ++ [none]) = query_batch_yields pages
  | [] => rfl
  | none :: t => rfl
  | some (recs, d) :: t => by
    simp only [List.cons_append, query_batch_yields, List.append_eq,
      yields_append_none t]

/-- Everything after the first failed fetch is never delivered. -/
theorem yields_stop :
    ∀ (pages rest : List PageFetch),
      query_batch_yields (pages ++ none :: rest)
        = query_batch_yields (pages ++ [none])
  | [], _ => rfl
  | none :: t, _ => rfl
  | some (recs, d) :: t, rest => by
    simp only [List.cons_append, query_batch_yields, List.append_eq,
      yields_stop t rest]

/-- A sync run on an existing table always reports success. -/
theorem sync_run_success_always (base : List Char)
    (wm : Option (List Char)) (start : List Char) (feed : List PageFetch)
    (table0 : List Row) (fm : List (List Char × List Char))
    (pks : List (List Char)) :
    (sync_run base wm start feed table0 fm pks true).success = true := by
  obtain ⟨hcalls, hfetched, hbatches, hwm, hsucc⟩ :=
    sync_foldl_spec fm pks (query_batch_yields feed)
      { success := true, table := table0, watermark := wm, calls := []
        fetched := 0, upserted := 0, deleted := 0, batches := 0 }
  rw [sync_run_eq]
  simp only []
  split
  · simpa using hsucc
  · simpa using hsucc

/-- C3 counterexample: a feed whose second page request fails is
indistinguishable from a feed that completed normally after the same first
page — the yielded batches are equal, the whole per-table run result is
equal, and it reports success — refuting both the exhausted-with-error
surfacing and the claim that the result distinguishes a partially-applied
run from a successful one. -/
theorem c3_counterexample :
    query_batch_yields feedFail3 = query_batch_yields feedOk3 ∧
    sync_run baseEx none startT feedFail3 [] fmEx pksEx true
      = sync_run baseEx none startT feedOk3 [] fmEx pksEx true ∧
    (sync_run baseEx none startT feedFail3 [] fmEx pksEx true).success
      = true := by
  exact ⟨rfl, rfl, rfl⟩

/-- C3 (amended): on a mid-pagination page failure the batch stream does
terminate early — no page after the first failure is ever delivered, and
any continuation after the failure yields the same batches — but the
failure is only logged, never surfaced: the generator ends exactly as on
normal exhaustion, and the per-table result reports success whenever the
table exists, with no field distinguishing a partially-applied run from a
fully successful one. -/
theorem query_batch_failure_is_silent (pages rest rest2 : List PageFetch) :
    query_batch_yields (pages ++ [none]) = query_batch_yields pages ∧
    query_batch_yields (pages ++ none :: rest)
      = query_batch_yields (pages ++ none :: rest2) ∧
    ∀ base wm start feed table0 fm pks,
      (sync_run base wm start feed table0 fm pks true).success = true := by
  refine ⟨yields_append_none pages, ?_, ?_⟩
  · rw [yields_stop pages rest, yields_stop pages rest2]
  · intro base wm start feed table0 fm pks
    exact sync_run_success_always base wm start feed table0 fm pks

/-- C3 witness: the amended behavior at the concrete failing feed. -/
theorem c3_witness :
    query_batch_yields ([some ([recActive], false)] ++ [none])
      = query_batch_yields [some ([recActive], false)] ∧
    (sync_run baseEx none startT feedFail3 [] fmEx pksEx true).success
      = true :=
  ⟨(query_batch_failure_is_silent [some ([recActive], false)] [] []).1,
    (query_batch_failure_is_silent [some ([recActive], false)] [] []).2.2
      baseEx none startT feedFail3 [] fmEx pksEx⟩

/-- C2 failing input: prior watermark `tsT`; page 1 delivers one active
record and is not final, the page 2 request fails, and a third page exists.
The code persists batch 1 (Alice's row is in the table), never attempts the
unreached page (no call mentions `recDeleted`), yet — because the swallowed
failure left `total_fetched = 1 > 0` — it COMMITS the watermark to the
pre-extraction timestamp `startT` and reports success, instead of leaving
the watermark at its pre-run value `tsT` as the claim requires. -/
theorem c2_watermark_advanced_on_failed_run :
    sync_run baseEx (some tsT) startT feedC2 [] fmEx pksEx true
      = { success := true, table := [rowAlice], watermark := some startT
          calls := [PgCall.upsert [recActive], PgCall.set_watermark startT]
          fetched := 1, upserted := 1, deleted := 0, batches := 1 } ∧
    (sync_run baseEx (some tsT) startT feedC2 [] fmEx pksEx true).watermark
      ≠ some tsT := by
  exact ⟨rfl, by decide⟩
